import Mathlib

/-!
Verification development for `parse_transaction.py` (payment-centralizer).

The Python source is shallowly embedded below.  Text is modelled as
`List Char`; Python regular expressions are embedded as specialised
matchers, one per pattern of the source, each matcher returning the
captured group(s) together with the number of characters consumed by the
whole match.  `re.findall` is embedded as a left-to-right scan that emits
each leftmost non-overlapping match and resumes after it; `re.search`
returns the groups of the leftmost match.  Python `float` values are
modelled as exact rationals (every numeral this program parses and prints
has at most two decimal digits, where binary floating point is exact for
the comparisons made here).
-/

/-- Python `str.lower` restricted to the alphabet this program manipulates:
ASCII letters plus the accented letters appearing in the bank registry. -/
def pyLower (c : Char) : Char :=
  if 'A' ≤ c ∧ c ≤ 'Z' then Char.ofNat (c.toNat + 32)
  else if c = 'Á' then 'á'
  else if c = 'É' then 'é'
  else if c = 'Í' then 'í'
  else if c = 'Ó' then 'ó'
  else if c = 'Ú' then 'ú'
  else if c = 'Ñ' then 'ñ'
  else if c = 'Ü' then 'ü'
  else c

def pyLowerL (l : List Char) : List Char := l.map pyLower

def pyLowerS (s : String) : String := ⟨pyLowerL s.data⟩

/-- Python regex `\s` (the whitespace characters of the ASCII range). -/
def isSpaceCh (c : Char) : Bool :=
  c == ' ' || c == '\t' || c == '\n' || c == '\r' || c == '\x0b' || c == '\x0c'

/-- Python regex `\w` on the ASCII range (used only for `\b`). -/
def isWordCh (c : Char) : Bool :=
  ('a' ≤ c && c ≤ 'z') || ('A' ≤ c && c ≤ 'Z') || ('0' ≤ c && c ≤ '9') || c == '_'

def isUpperCh (c : Char) : Bool := 'A' ≤ c && c ≤ 'Z'

def isAlphaCh (c : Char) : Bool := ('a' ≤ c && c ≤ 'z') || ('A' ≤ c && c ≤ 'Z')

def isWordOpt : Option Char → Bool
  | none => false
  | some c => isWordCh c

/-- Python regex `\b`: exactly one side of the position is a word character
(string start / end counting as non-word). -/
def atBoundary (prev next : Option Char) : Bool := isWordOpt prev != isWordOpt next

/-- Prefix test: `startsWithL n h` holds when the needle `n` starts the haystack `h`. -/
def startsWithL : List Char → List Char → Bool
  | [], _ => true
  | _ :: _, [] => false
  | a :: as, b :: bs => a == b && startsWithL as bs

/-- Python `needle in hay` for strings: substring containment. -/
def infixOf : List Char → List Char → Bool
  | ns, [] => ns.isEmpty
  | ns, h :: t => startsWithL ns (h :: t) || infixOf ns t

/-- Greedy match of a run of characters of one class (`\s*`, `\**`, ...):
returns the run and the rest.  Correct for every use below because in each
source pattern the construct following such a run can never begin with a
character of the class, so the maximal munch is the unique choice. -/
def takeClass (p : Char → Bool) : List Char → List Char × List Char
  | [] => ([], [])
  | c :: cs =>
    if p c then
      let r := takeClass p cs
      (c :: r.1, r.2)
    else ([], c :: cs)

/-- Greedy `\d{0,n}`: up to `n` leading digits. -/
def takeDigits : Nat → List Char → List Char × List Char
  | 0, s => ([], s)
  | _ + 1, [] => ([], [])
  | n + 1, c :: cs =>
    if c.isDigit then
      let r := takeDigits n cs
      (c :: r.1, r.2)
    else ([], c :: cs)

/-- Pattern `\d{n}`: exactly `n` digits, or failure. -/
def exactDigits : Nat → List Char → Option (List Char × List Char)
  | 0, s => some ([], s)
  | _ + 1, [] => none
  | n + 1, c :: cs =>
    if c.isDigit then (exactDigits n cs).map (fun p => (c :: p.1, p.2)) else none

/-- Case-insensitive literal: returns the matched original characters and
the rest. -/
def litCi : List Char → List Char → Option (List Char × List Char)
  | [], s => some ([], s)
  | _ :: _, [] => none
  | p :: ps, c :: cs =>
    if pyLower c == pyLower p then (litCi ps cs).map (fun r => (c :: r.1, r.2)) else none

/-- Pattern `(?:SEP\d{3})*` (greedy): repeated groups of a separator
character and exactly three digits.  The fuel only bounds the recursion
(each round consumes four characters and one unit of fuel), so starting
it at the length of the list never cuts a match short. -/
def sepGroupsF (sepP : Char → Bool) : Nat → List Char → List Char × List Char
  | 0, s => ([], s)
  | _ + 1, [] => ([], [])
  | f + 1, c :: cs =>
    if sepP c then
      match cs with
      | a :: b :: d :: rest =>
        if a.isDigit && b.isDigit && d.isDigit then
          let r := sepGroupsF sepP f rest
          (c :: a :: b :: d :: r.1, r.2)
        else ([], c :: cs)
      | _ => ([], c :: cs)
    else ([], c :: cs)

def sepGroups (sepP : Char → Bool) (s : List Char) : List Char × List Char :=
  sepGroupsF sepP s.length s

/-- Pattern `(?:DEC\d{2})?` (greedy): an optional decimal separator with exactly
two digits. -/
def decTail (decP : Char → Bool) : List Char → List Char × List Char
  | [] => ([], [])
  | c :: cs =>
    if decP c then
      match cs with
      | a :: b :: rest =>
        if a.isDigit && b.isDigit then ([c, a, b], rest) else ([], c :: cs)
      | _ => ([], c :: cs)
    else ([], c :: cs)

/-- Pattern `\d{1,3}(?:SEP\d{3})*(?:DEC\d{2})?`.  No backtracking is needed over
the `\d{1,3}` choice here: everything after it is nullable, so the greedy
choice always stands. -/
def numeralMatch (sepP decP : Char → Bool) (s : List Char) : Option (List Char × List Char) :=
  let d := takeDigits 3 s
  if d.1.isEmpty then none
  else
    let g := sepGroups sepP d.2
    let t := decTail decP g.2
    some (d.1 ++ g.1 ++ t.1, t.2)

/-- Priority 1, `COP\s*(\d{1,3}(?:\.\d{3})*(?:,\d{2})?)` with
`re.IGNORECASE`: returns (captured numeral, length of the whole match). -/
def matchCOP (s : List Char) : Option (List Char × Nat) :=
  match litCi ['C', 'O', 'P'] s with
  | none => none
  | some (_, r1) =>
    let sp := takeClass isSpaceCh r1
    match numeralMatch (· == '.') (· == ',') sp.2 with
    | none => none
    | some (cap, _) => some (cap, 3 + sp.1.length + cap.length)

/-- Priority 2, `USD\s*(\d{1,3}(?:,\d{3})*(?:\.\d{2})?)` with
`re.IGNORECASE`. -/
def matchUSD (s : List Char) : Option (List Char × Nat) :=
  match litCi ['U', 'S', 'D'] s with
  | none => none
  | some (_, r1) =>
    let sp := takeClass isSpaceCh r1
    match numeralMatch (· == ',') (· == '.') sp.2 with
    | none => none
    | some (cap, _) => some (cap, 3 + sp.1.length + cap.length)

/-- Priority 3, `\$\s*(\d{1,3}(?:[\.,]\d{3})*(?:[\.,]\d{2})?)`. -/
def matchDollar (s : List Char) : Option (List Char × Nat) :=
  match s with
  | '$' :: r1 =>
    let sp := takeClass isSpaceCh r1
    match numeralMatch (fun c => c == '.' || c == ',') (fun c => c == '.' || c == ',') sp.2 with
    | none => none
    | some (cap, _) => some (cap, 1 + sp.1.length + cap.length)
  | _ => none

/-- One backtracking alternative of `\d{1,3}` for the fallback pattern:
exactly `d` digits, then at least one `\.\d{3}` group, then an optional
`,\d{2}` tail. -/
def generalTry (d : Nat) (s : List Char) : Option (List Char × Nat) :=
  match exactDigits d s with
  | none => none
  | some (ds, r) =>
    let g := sepGroups (· == '.') r
    if g.1.isEmpty then none
    else
      let t := decTail (· == ',') g.2
      some (ds ++ g.1 ++ t.1, d + g.1.length + t.1.length)

/-- Priority 4, `(\d{1,3}(?:\.\d{3})+(?:,\d{2})?)`.  `\d{1,3}` is
greedy but the mandatory `+` group after it can fail, so the 3-, 2- and
1-digit alternatives are tried in that order, as the Python engine does. -/
def matchGeneral (s : List Char) : Option (List Char × Nat) :=
  generalTry 3 s <|> generalTry 2 s <|> generalTry 1 s

/-- Embedding of re.findall (single-group patterns): scan left to right, emit each
leftmost match and resume right after it.  The fuel is the length of the
scanned text; every match of the patterns used here consumes at least one
character, so the fuel never runs out before the text does. -/
def scanAllF {α : Type} (m : List Char → Option (α × Nat)) : Nat → List Char → List α
  | 0, _ => []
  | _ + 1, [] => []
  | f + 1, c :: cs =>
    match m (c :: cs) with
    | some (a, n) => a :: scanAllF m f (List.drop (max n 1) (c :: cs))
    | none => scanAllF m f cs

def scanAll {α : Type} (m : List Char → Option (α × Nat)) (s : List Char) : List α :=
  scanAllF m s.length s

/-- Remove every occurrence of a character (Python str.replace with an empty replacement). -/
def removeAll (c : Char) (l : List Char) : List Char := l.filter (fun x => !(x == c))

/-- Replace every occurrence of a character (Python `str.replace(a, b)` for
one-character arguments). -/
def replAll (a b : Char) (l : List Char) : List Char :=
  l.map (fun c => if c == a then b else c)

/-- Python str.split on the period character. -/
def splitOnDot : List Char → List (List Char)
  | [] => [[]]
  | c :: cs =>
    if c == '.' then [] :: splitOnDot cs
    else
      match splitOnDot cs with
      | h :: t => (c :: h) :: t
      | [] => [[c]]

def natOfDigits (l : List Char) : Nat :=
  l.foldl (fun acc c => 10 * acc + (c.toNat - '0'.toNat)) 0

/-- Python `float(s)`, restricted to the strings this program can feed it
(digit/period/comma strings produced by the regexes after the `replace`
transformations), as an exact rational.  Anything that is not plain digits
with at most one period raises `ValueError` in Python and is `none` here.
Built with `mkRat` so that the value evaluates inside the kernel. -/
def pyFloat (s : List Char) : Option ℚ :=
  match splitOnDot s with
  | [a] =>
    if a ≠ [] ∧ a.all Char.isDigit then some (mkRat (natOfDigits a) 1) else none
  | [a, b] =>
    if a ≠ [] ∧ a.all Char.isDigit ∧ b.all Char.isDigit then
      some (mkRat (natOfDigits a * 10 ^ b.length + natOfDigits b) (10 ^ b.length))
    else none
  | _ => none

/-- Round `q * 10 ^ pow` to the nearest integer, ties to even: the
rounding used by the fixed-point float formatting of Python.  Phrased on the
numerator and denominator so that it evaluates inside the kernel. -/
def rheScaled (q : ℚ) (pow : Nat) : ℤ :=
  let nn : ℤ := q.num * (10 ^ pow : ℕ)
  let dd : ℤ := (q.den : ℤ)
  let fl := Int.fdiv nn dd
  let rem := nn - fl * dd
  if 2 * rem < dd then fl
  else if dd < 2 * rem then fl + 1
  else if fl % 2 = 0 then fl else fl + 1

/-- Insert `,` every three digits from the right (the `,` option of a
Python format spec); the input is the digit list, most significant first. -/
def groupRev : List Char → List Char
  | a :: b :: c :: d :: rest => a :: b :: c :: ',' :: groupRev (d :: rest)
  | l => l

def groupThousands (ds : List Char) : List Char := (groupRev ds.reverse).reverse

/-- Python fixed-point formatting with thousands grouping (the format
specs `,.2f` and `,.0f` of the source) for a non-negative value:
`decimals` digits, round-half-even, thousands groups separated by `,`. -/
def pyFormatGrouped (q : ℚ) (decimals : Nat) : List Char :=
  let n := (rheScaled q decimals).toNat
  let ip := n / 10 ^ decimals
  let fp := n % 10 ^ decimals
  if decimals = 0 then groupThousands (Nat.toDigits 10 ip)
  else
    let fd := Nat.toDigits 10 fp
    groupThousands (Nat.toDigits 10 ip) ++ '.' :: (List.replicate (decimals - fd.length) '0' ++ fd)

/-- The three-step replace chain of the source (comma to X, period to
comma, X to period): swap the two separators. -/
def swapSeps (l : List Char) : List Char :=
  replAll 'X' '.' (replAll '.' ',' (replAll ',' 'X' l))

structure AmountInfo where
  amount : ℚ
  currency : String
  formatted : String
deriving DecidableEq, Repr

/-- Registry `COLOMBIAN_BANKS` of the source (a Python set; only membership is ever
observed, so a list embeds it faithfully). -/
def COLOMBIAN_BANKS : List String :=
  ["bancolombia", "davivienda", "bbva colombia", "banco de bogotá",
   "banco de occidente", "banco popular", "banco av villas",
   "banco caja social", "bancoomeva", "colpatria", "itaú"]

/-- Lines 40-42: `any(bank.lower() in COLOMBIAN_BANKS for bank in banks)`
(`in` on a Python set is membership, i.e. exact string equality); an
absent / empty bank list leaves the flag false. -/
def is_colombian_bank (banks : List String) : Bool :=
  banks.any (fun b => COLOMBIAN_BANKS.contains (pyLowerS b))

/-- Lines 83-101: the Colombian-format disambiguation of a priority-3
match, producing the string fed to `float` and its parse. -/
def colParse (m : List Char) : Option ℚ :=
  if m.contains '.' && m.contains ',' then
    pyFloat (replAll ',' '.' (removeAll '.' m))
  else if m.contains '.' then
    if decide (1 ≤ List.count '.' m) && ((splitOnDot m).getLastD []).length == 3 then
      pyFloat (removeAll '.' m)
    else pyFloat m
  else pyFloat (replAll ',' '.' m)

/-- Priority-1 loop (lines 48-59): each COP match parsed by stripping
periods and turning the comma into a decimal point; parse failures are
silently dropped (`except ValueError: continue`). -/
def copCandidatesL (l : List Char) : List AmountInfo :=
  (scanAll matchCOP l).filterMap (fun m =>
    (pyFloat (replAll ',' '.' (removeAll '.' m))).map (fun q =>
      ⟨q, "COP", ⟨swapSeps ("COP ".data ++ pyFormatGrouped q 2)⟩⟩))

/-- Priority-2 loop (lines 65-75). -/
def usdCandidatesL (l : List Char) : List AmountInfo :=
  (scanAll matchUSD l).filterMap (fun m =>
    (pyFloat (removeAll ',' m)).map (fun q =>
      ⟨q, "USD", ⟨"USD ".data ++ pyFormatGrouped q 2⟩⟩))

/-- Priority-3 loop (lines 81-118). -/
def dollarCandidatesL (isCo : Bool) (l : List Char) : List AmountInfo :=
  (scanAll matchDollar l).filterMap (fun m =>
    if isCo then
      (colParse m).map (fun q =>
        ⟨q, "COP", ⟨replAll ',' '.' ("$ ".data ++ pyFormatGrouped q 0)⟩⟩)
    else
      (pyFloat (removeAll ',' m)).map (fun q =>
        ⟨q, "USD", ⟨'$' :: pyFormatGrouped q 2⟩⟩))

/-- Priority-4 loop (lines 121-137). -/
def fallbackCandidatesL (isCo : Bool) (l : List Char) : List AmountInfo :=
  (scanAll matchGeneral l).filterMap (fun m =>
    (pyFloat (replAll ',' '.' (removeAll '.' m))).map (fun q =>
      ⟨q, if isCo then "COP" else "UNKNOWN", ⟨m⟩⟩))

/-- Function `extract_amounts` (lines 27-139) for a given Colombian-bank flag:
priorities 1-3 all accumulate; priority 4 runs only when nothing
accumulated. -/
def amountCascade (isCo : Bool) (l : List Char) : List AmountInfo :=
  let acc := copCandidatesL l ++ usdCandidatesL l ++ dollarCandidatesL isCo l
  if acc.isEmpty then fallbackCandidatesL isCo l else acc

def extract_amounts (text : String) (banks : List String) : List AmountInfo :=
  amountCascade (is_colombian_bank banks) text.data

/-- Embedding of re.findall for the patterns that begin with `\b`: same scan, but the
character preceding the current position is threaded through so the
boundary can be tested. -/
def scanAllBF {α : Type} (m : Option Char → List Char → Option (α × Nat)) :
    Nat → Option Char → List Char → List α
  | 0, _, _ => []
  | _ + 1, _, [] => []
  | f + 1, prev, c :: cs =>
    match m prev (c :: cs) with
    | some (a, n) =>
      let k := max n 1
      a :: scanAllBF m f (((c :: cs).take k).getLast?) (List.drop k (c :: cs))
    | none => scanAllBF m f (some c) cs

def scanAllB {α : Type} (m : Option Char → List Char → Option (α × Nat)) (s : List Char) :
    List α :=
  scanAllBF m s.length none s

/-- Embedding of re.search: the leftmost position at which the matcher succeeds. -/
def searchFirst {α : Type} (m : List Char → Option α) : List Char → Option α
  | [] => none
  | c :: t => m (c :: t) <|> searchFirst m t

/-- Embedding of re.search for a pattern that begins with `\b`, threading the
previous character. -/
def searchB {α : Type} (m : Option Char → List Char → Option α) :
    Option Char → List Char → Option α
  | _, [] => none
  | prev, c :: t => m prev (c :: t) <|> searchB m (some c) t

/-- Pattern `\d{1,2}/` with its backtracking: two digits then a slash, else one
digit then a slash. -/
def ddSlash : List Char → Option (List Char × List Char)
  | a :: b :: c :: r =>
    if a.isDigit && b.isDigit && c == '/' then some ([a, b, c], r)
    else if a.isDigit && b == '/' then some ([a, b], c :: r)
    else none
  | [a, b] => if a.isDigit && b == '/' then some ([a, b], []) else none
  | _ => none

/-- Pattern `\d{2,4}` (greedy, nothing follows it in the pattern). -/
def digits2to4 (s : List Char) : Option (List Char × List Char) :=
  let t := takeDigits 4 s
  if t.1.length < 2 then none else some t

/-- Date pattern 1, `\d{1,2}/\d{1,2}/\d{2,4}` (no group: the whole
match is returned). -/
def matchDate1 (s : List Char) : Option (List Char × Nat) :=
  match ddSlash s with
  | none => none
  | some (m1, r1) =>
    match ddSlash r1 with
    | none => none
    | some (m2, r2) =>
      match digits2to4 r2 with
      | none => none
      | some (m3, _) =>
        let w := m1 ++ m2 ++ m3
        some (w, w.length)

/-- Date pattern 2, `\d{4}-\d{2}-\d{2}`. -/
def matchDate2 (s : List Char) : Option (List Char × Nat) :=
  match exactDigits 4 s with
  | some (y, '-' :: r1) =>
    match exactDigits 2 r1 with
    | some (mo, '-' :: r2) =>
      match exactDigits 2 r2 with
      | some (d, _) =>
        let w := y ++ '-' :: mo ++ '-' :: d
        some (w, w.length)
      | _ => none
    | _ => none
  | _ => none

def monthLit (s : List Char) : Option (List Char × List Char) :=
  litCi "Jan".data s <|> litCi "Feb".data s <|> litCi "Mar".data s <|>
  litCi "Apr".data s <|> litCi "May".data s <|> litCi "Jun".data s <|>
  litCi "Jul".data s <|> litCi "Aug".data s <|> litCi "Sep".data s <|>
  litCi "Oct".data s <|> litCi "Nov".data s <|> litCi "Dec".data s

/-- Pattern of a literal space followed by `\d{4}` (the year). -/
def spaceYear (s : List Char) : Option (List Char × List Char) :=
  match s with
  | ' ' :: r => (exactDigits 4 r).map (fun p => (' ' :: p.1, p.2))
  | _ => none

/-- Pattern `,? \d{4}` with the greedy optional comma tried first. -/
def commaSpaceYear (s : List Char) : Option (List Char × List Char) :=
  (match s with
   | ',' :: r => (spaceYear r).map (fun p => (',' :: p.1, p.2))
   | _ => none) <|> spaceYear s

/-- Pattern `\d{1,2},? \d{4}` with the two-digit day tried before the
one-digit day. -/
def dayYear (s : List Char) : Option (List Char × List Char) :=
  (match exactDigits 2 s with
   | some (d, r) => (commaSpaceYear r).map (fun p => (d ++ p.1, p.2))
   | none => none) <|>
  (match exactDigits 1 s with
   | some (d, r) => (commaSpaceYear r).map (fun p => (d ++ p.1, p.2))
   | none => none)

/-- Date pattern 3,
`(?:Jan|Feb|Mar|Apr|May|Jun|Jul|Aug|Sep|Oct|Nov|Dec)[a-z]* \d{1,2},? \d{4}`
with `re.IGNORECASE` (so `[a-z]` also matches capitals). -/
def matchDate3 (s : List Char) : Option (List Char × Nat) :=
  match monthLit s with
  | none => none
  | some (mon, r1) =>
    let tl := takeClass isAlphaCh r1
    match tl.2 with
    | ' ' :: r2 =>
      match dayYear r2 with
      | none => none
      | some (dy, _) =>
        let w := mon ++ tl.1 ++ ' ' :: dy
        some (w, w.length)
    | _ => none

/-- Function `extract_dates` (lines 141-155): the findall results of the
three patterns, concatenated in order. -/
def extract_dates (text : String) : List String :=
  ((scanAll matchDate1 text.data ++ scanAll matchDate2 text.data ++
    scanAll matchDate3 text.data).map (fun l => (⟨l⟩ : String)))

/-- Class `[A-Z0-9-]` under re.IGNORECASE. -/
def isRefCh (c : Char) : Bool := isAlphaCh c || c.isDigit || c == '-'

/-- Pattern `:?\s*([A-Z0-9-]+)`: capture and characters consumed from here on. -/
def refRest2 (s : List Char) : Option (List Char × Nat) :=
  let sp := takeClass isSpaceCh s
  let cl := takeClass isRefCh sp.2
  if cl.1.isEmpty then none else some (cl.1, sp.1.length + cl.1.length)

def refRest (s : List Char) : Option (List Char × Nat) :=
  (match s with
   | ':' :: r => (refRest2 r).map (fun p => (p.1, p.2 + 1))
   | _ => none) <|> refRest2 s

/-- Pattern `(?:NO|NUMBER|#)?` followed by the rest, alternatives in
pattern order, the empty alternative last. -/
def refOpt (s : List Char) : Option (List Char × Nat) :=
  (match litCi "NO".data s with
   | some (_, r) => (refRest r).map (fun p => (p.1, p.2 + 2))
   | none => none) <|>
  (match litCi "NUMBER".data s with
   | some (_, r) => (refRest r).map (fun p => (p.1, p.2 + 6))
   | none => none) <|>
  (match s with
   | '#' :: r => (refRest r).map (fun p => (p.1, p.2 + 1))
   | _ => none) <|>
  refRest s

def refAfterLabel (labelLen : Nat) (s : List Char) : Option (List Char × Nat) :=
  let sp := takeClass isSpaceCh s
  (refOpt sp.2).map (fun p => (p.1, labelLen + sp.1.length + p.2))

/-- Reference pattern 1,
`(?:REF|REFERENCE|CONFIRMATION|TRANSACTION)\s*(?:NO|NUMBER|#)?:?\s*([A-Z0-9-]+)`
with `re.IGNORECASE`; alternatives tried in order with full
backtracking into the continuation. -/
def matchRef1 (s : List Char) : Option (List Char × Nat) :=
  (match litCi "REF".data s with
   | some (_, r) => refAfterLabel 3 r
   | none => none) <|>
  (match litCi "REFERENCE".data s with
   | some (_, r) => refAfterLabel 9 r
   | none => none) <|>
  (match litCi "CONFIRMATION".data s with
   | some (_, r) => refAfterLabel 12 r
   | none => none) <|>
  (match litCi "TRANSACTION".data s with
   | some (_, r) => refAfterLabel 11 r
   | none => none)

/-- Reference pattern 2, `\b[A-Z]{2,}\d{6,}\b` with `re.IGNORECASE`
(no group: whole match).  The letter and digit runs are maximal; a shorter
digit run would end right before a digit, where `\b` fails, so no
backtracking can succeed where the maximal run does not. -/
def matchRef2 (prev : Option Char) (s : List Char) : Option (List Char × Nat) :=
  if isWordOpt prev then none
  else
    let lets := takeClass isAlphaCh s
    if lets.1.length < 2 then none
    else
      let digs := takeClass (fun c => c.isDigit) lets.2
      if digs.1.length < 6 then none
      else if isWordOpt digs.2.head? then none
      else
        let w := lets.1 ++ digs.1
        some (w, w.length)

/-- Function `extract_reference_numbers` (lines 157-170). -/
def extract_reference_numbers (text : String) : List String :=
  ((scanAll matchRef1 text.data ++ scanAllB matchRef2 text.data).map
    (fun l => (⟨l⟩ : String)))

/-- Account pattern 1, `\*{4,}(\d{4})`. -/
def matchMask (s : List Char) : Option (List Char × Nat) :=
  let st := takeClass (fun c => c == '*') s
  if st.1.length < 4 then none
  else
    match exactDigits 4 st.2 with
    | some (ds, _) => some (ds, st.1.length + 4)
    | none => none

/-- Pattern `:?\s*\**(\d{4})`. -/
def acctRest2 (s : List Char) : Option (List Char × Nat) :=
  let sp := takeClass isSpaceCh s
  let st := takeClass (fun c => c == '*') sp.2
  match exactDigits 4 st.2 with
  | some (ds, _) => some (ds, sp.1.length + st.1.length + 4)
  | none => none

def acctRest (s : List Char) : Option (List Char × Nat) :=
  (match s with
   | ':' :: r => (acctRest2 r).map (fun p => (p.1, p.2 + 1))
   | _ => none) <|> acctRest2 s

def acctOpt (s : List Char) : Option (List Char × Nat) :=
  (match litCi "NO".data s with
   | some (_, r) => (acctRest r).map (fun p => (p.1, p.2 + 2))
   | none => none) <|>
  (match litCi "NUMBER".data s with
   | some (_, r) => (acctRest r).map (fun p => (p.1, p.2 + 6))
   | none => none) <|>
  (match s with
   | '#' :: r => (acctRest r).map (fun p => (p.1, p.2 + 1))
   | _ => none) <|>
  acctRest s

def acctAfterLabel (labelLen : Nat) (s : List Char) : Option (List Char × Nat) :=
  let sp := takeClass isSpaceCh s
  (acctOpt sp.2).map (fun p => (p.1, labelLen + sp.1.length + p.2))

/-- Account pattern 2,
`(?:ACCOUNT|ACCT)\s*(?:NO|NUMBER|#)?:?\s*\**(\d{4})` with
`re.IGNORECASE`. -/
def matchAcct (s : List Char) : Option (List Char × Nat) :=
  (match litCi "ACCOUNT".data s with
   | some (_, r) => acctAfterLabel 7 r
   | none => none) <|>
  (match litCi "ACCT".data s with
   | some (_, r) => acctAfterLabel 4 r
   | none => none)

/-- Function `extract_account_numbers` (lines 172-185). -/
def extract_account_numbers (text : String) : List String :=
  ((scanAll matchMask text.data ++ scanAll matchAcct text.data).map
    (fun l => (⟨l⟩ : String)))

/-- Class `[A-Z\s]`. -/
def isMerCh (c : Char) : Bool := isUpperCh c || isSpaceCh c

/-- Lazy `CLS+?` followed by a terminator test: consume one class
character, stop as soon as the terminator matches the rest, exactly the
expansion order of a reluctant quantifier. -/
def lazyCapTo (cls : Char → Bool) (term : List Char → Bool) : List Char → Option (List Char)
  | [] => none
  | c :: cs =>
    if cls c then
      if term cs then some [c] else (lazyCapTo cls term cs).map (fun t => c :: t)
    else none

/-- Terminator `(?:\s+con\s+)` of the first merchant pattern
(case-sensitive). -/
def term1 (s : List Char) : Bool :=
  let sp := takeClass isSpaceCh s
  if sp.1.isEmpty then false
  else
    match sp.2 with
    | 'c' :: 'o' :: 'n' :: r => !(takeClass isSpaceCh r).1.isEmpty
    | _ => false

/-- Terminator `(?:\s|$)`. -/
def termWsEnd : List Char → Bool
  | [] => true
  | c :: _ => isSpaceCh c

/-- Merchant pattern 1, `en\s+([A-Z][A-Z\s]+?)(?:\s+con\s+)`
(case-sensitive), returning the captured group. -/
def mer1At (s : List Char) : Option (List Char) :=
  match s with
  | 'e' :: 'n' :: r =>
    let sp := takeClass isSpaceCh r
    if sp.1.isEmpty then none
    else
      match sp.2 with
      | h :: t => if isUpperCh h then (lazyCapTo isMerCh term1 t).map (fun u => h :: u) else none
      | [] => none
  | _ => none

/-- Merchant pattern 2, `at\s+([A-Z][A-Z\s]+?)(?:\s|$)`. -/
def mer2At (s : List Char) : Option (List Char) :=
  match s with
  | 'a' :: 't' :: r =>
    let sp := takeClass isSpaceCh r
    if sp.1.isEmpty then none
    else
      match sp.2 with
      | h :: t =>
        if isUpperCh h then (lazyCapTo isMerCh termWsEnd t).map (fun u => h :: u) else none
      | [] => none
  | _ => none

/-- Merchant pattern 3, `@\s*([A-Z][A-Z\s]+?)(?:\s|$)`. -/
def mer3At (s : List Char) : Option (List Char) :=
  match s with
  | '@' :: r =>
    let sp := takeClass isSpaceCh r
    match sp.2 with
    | h :: t =>
      if isUpperCh h then (lazyCapTo isMerCh termWsEnd t).map (fun u => h :: u) else none
    | [] => none
  | _ => none

/-- Python `str.strip()`. -/
def stripWs (l : List Char) : List Char :=
  ((l.dropWhile isSpaceCh).reverse.dropWhile isSpaceCh).reverse

/-- Embedding of the whitespace-collapsing re.sub of line 202: every
maximal whitespace run becomes one space. -/
def collapseWs : List Char → List Char
  | [] => []
  | [c] => if isSpaceCh c then [' '] else [c]
  | c :: d :: cs =>
    if isSpaceCh c && isSpaceCh d then collapseWs (d :: cs)
    else (if isSpaceCh c then ' ' else c) :: collapseWs (d :: cs)

def cleanMerchant (cap : List Char) : String := ⟨collapseWs (stripWs cap)⟩

/-- Function `extract_merchant` (lines 187-205): first pattern with any match wins;
its group is stripped and whitespace-collapsed. -/
def extract_merchant (text : String) : Option String :=
  match searchFirst mer1At text.data with
  | some cap => some (cleanMerchant cap)
  | none =>
    match searchFirst mer2At text.data with
    | some cap => some (cleanMerchant cap)
    | none =>
      match searchFirst mer3At text.data with
      | some cap => some (cleanMerchant cap)
      | none => none

structure CardInfo where
  type : String
  last4 : String
deriving DecidableEq, Repr

/-- Pattern `\s*\*(\d{4})`: the tail shared by the first two card patterns. -/
def cardTail (s : List Char) : Option (List Char) :=
  let sp := takeClass isSpaceCh s
  match sp.2 with
  | '*' :: r => (exactDigits 4 r).map (fun p => p.1)
  | _ => none

/-- Card pattern 1, `(T\.Cred|T\.Deb|Tarjeta)\s*\*(\d{4})` with
`re.IGNORECASE`; the label group keeps the original spelling. -/
def card1At (s : List Char) : Option (List Char × List Char) :=
  (match litCi "T.Cred".data s with
   | some (ty, r) => (cardTail r).map (fun d => (ty, d))
   | none => none) <|>
  (match litCi "T.Deb".data s with
   | some (ty, r) => (cardTail r).map (fun d => (ty, d))
   | none => none) <|>
  (match litCi "Tarjeta".data s with
   | some (ty, r) => (cardTail r).map (fun d => (ty, d))
   | none => none)

/-- Card pattern 2, `(Credit|Debit|Card)\s*\*(\d{4})` with
`re.IGNORECASE`. -/
def card2At (s : List Char) : Option (List Char × List Char) :=
  (match litCi "Credit".data s with
   | some (ty, r) => (cardTail r).map (fun d => (ty, d))
   | none => none) <|>
  (match litCi "Debit".data s with
   | some (ty, r) => (cardTail r).map (fun d => (ty, d))
   | none => none) <|>
  (match litCi "Card".data s with
   | some (ty, r) => (cardTail r).map (fun d => (ty, d))
   | none => none)

/-- Card pattern 3, `\*(\d{4})`. -/
def card3At (s : List Char) : Option (List Char) :=
  match s with
  | '*' :: r => (exactDigits 4 r).map (fun p => p.1)
  | _ => none

/-- Lines 220-230: translate the captured label (a case-sensitive `in`
test against the original spelling). -/
def translateCard (ty : List Char) : String :=
  if infixOf "T.Cred".data ty || infixOf "Tarjeta".data ty then "Credit Card"
  else if infixOf "T.Deb".data ty then "Debit Card"
  else ⟨ty⟩

/-- Function `extract_card_info` (lines 207-237). -/
def extract_card_info (text : String) : Option CardInfo :=
  match searchFirst card1At text.data with
  | some (ty, d) => some ⟨translateCard ty, ⟨d⟩⟩
  | none =>
    match searchFirst card2At text.data with
    | some (ty, d) => some ⟨translateCard ty, ⟨d⟩⟩
    | none =>
      match searchFirst card3At text.data with
      | some d => some ⟨"Unknown", ⟨d⟩⟩
      | none => none

/-- Group `([0-2]?\d)` followed by `:`, with the two-digit form tried
first. -/
def hourSplit : List Char → Option (List Char × List Char)
  | a :: b :: c :: r =>
    if ('0' ≤ a && a ≤ '2') && b.isDigit && c == ':' then some ([a, b], r)
    else if a.isDigit && b == ':' then some ([a], c :: r)
    else none
  | [a, b] => if a.isDigit && b == ':' then some ([a], []) else none
  | _ => none

/-- Pattern `(AM|PM|am|pm)?\b` at a fixed position: the four literals in order
(each follows the `\b` after its last letter), then the empty alternative
with `\b` between `prev` and the position. -/
def meridTail (prev : Char) (s : List Char) : Option (Option String) :=
  match s with
  | 'A' :: 'M' :: r =>
    if atBoundary (some 'M') r.head? then some (some "AM")
    else if atBoundary (some prev) s.head? then some none else none
  | 'P' :: 'M' :: r =>
    if atBoundary (some 'M') r.head? then some (some "PM")
    else if atBoundary (some prev) s.head? then some none else none
  | 'a' :: 'm' :: r =>
    if atBoundary (some 'm') r.head? then some (some "am")
    else if atBoundary (some prev) s.head? then some none else none
  | 'p' :: 'm' :: r =>
    if atBoundary (some 'm') r.head? then some (some "pm")
    else if atBoundary (some prev) s.head? then some none else none
  | _ => if atBoundary (some prev) s.head? then some none else none

/-- Pattern `\s*(AM|PM|am|pm)?\b`: spaces are consumed greedily, backing off one
at a time when the meridiem-or-boundary tail fails. -/
def timeTailLoop (prev : Char) : List Char → Option (Option String)
  | [] => meridTail prev []
  | c :: cs =>
    if isSpaceCh c then (timeTailLoop c cs) <|> meridTail prev (c :: cs)
    else meridTail prev (c :: cs)

/-- Time pattern 1, `\b([0-2]?\d):([0-5]\d)\s*(AM|PM|am|pm)?\b`:
returns the three groups of the match. -/
def time1At (prev : Option Char) (s : List Char) : Option (String × String × Option String) :=
  if isWordOpt prev then none
  else
    match hourSplit s with
    | some (h, m1 :: m2 :: r) =>
      if ('0' ≤ m1 && m1 ≤ '5') && m2.isDigit then
        (timeTailLoop m2 r).map (fun g3 => ((⟨h⟩ : String), (⟨[m1, m2]⟩ : String), g3))
      else none
    | _ => none

/-- Time pattern 2, `a\s+las\s+([0-2]?\d):([0-5]\d)` (case-sensitive,
two groups). -/
def time2At (s : List Char) : Option (String × String) :=
  match s with
  | 'a' :: r =>
    let sp := takeClass isSpaceCh r
    if sp.1.isEmpty then none
    else
      match sp.2 with
      | 'l' :: 'a' :: 's' :: r2 =>
        let sp2 := takeClass isSpaceCh r2
        if sp2.1.isEmpty then none
        else
          match hourSplit sp2.2 with
          | some (h, m1 :: m2 :: _) =>
            if ('0' ≤ m1 && m1 ≤ '5') && m2.isDigit then
              some ((⟨h⟩ : String), (⟨[m1, m2]⟩ : String))
            else none
          | _ => none
      | _ => none
  | _ => none

/-- Python `f"{x}"` of `match.group(3)`: a non-participating group is
`None` and the f-string renders it as the four letters `None`. -/
def pyStrOpt : Option String → String
  | some s => s
  | none => "None"

/-- Function `extract_time` (lines 239-255): the first pattern with a match wins;
the result is `f"{hour}:{minute} {meridiem}".strip()` where `meridiem` is
`match.group(3)` for the first pattern (possibly `None`) and the empty
string for the second (it has only two groups). -/
def extract_time (text : String) : Option String :=
  match searchB time1At none text.data with
  | some (h, m, g3) =>
    some (⟨stripWs (h.data ++ ':' :: m.data ++ ' ' :: (pyStrOpt g3).data)⟩ : String)
  | none =>
    match searchFirst time2At text.data with
    | some (h, m) => some (⟨stripWs (h.data ++ ':' :: m.data ++ [' '])⟩ : String)
    | none => none

/-- Function `detect_transaction_type` (lines 257-275): case-insensitive substring
tests against six keyword lists in fixed order. -/
def detect_transaction_type (text : String) : String :=
  let t := pyLowerL text.data
  if ["compraste", "compra", "purchase"].any (fun k => infixOf k.data t) then "PURCHASE"
  else if ["transferiste", "transferencia", "wire transfer", "wire"].any
      (fun k => infixOf k.data t) then "WIRE_TRANSFER"
  else if ["retiraste", "retiro", "withdrawal", "withdraw", "atm"].any
      (fun k => infixOf k.data t) then "WITHDRAWAL"
  else if ["depositaste", "depósito", "deposit", "deposited"].any
      (fun k => infixOf k.data t) then "DEPOSIT"
  else if ["pagaste", "pago", "payment", "paid"].any (fun k => infixOf k.data t) then "PAYMENT"
  else if ["ach", "electronic transfer"].any (fun k => infixOf k.data t) then "ACH_TRANSFER"
  else "UNKNOWN"

/-- The annotation object of §6, after JSON decoding: each entry of the
three sequences is its description string (with the empty-string default
of the source already applied; an absent key behaves exactly like an empty
sequence in every consumer, so both are the empty list here). -/
structure VisionAnnotations where
  textAnnotations : List String
  logoAnnotations : List String
  labelAnnotations : List String
deriving DecidableEq, Repr

/-- Function `extract_text_from_annotations` (lines 20-25). -/
def extract_text_from_annotations (a : VisionAnnotations) : String :=
  a.textAnnotations.headD ""

/-- The `common_banks` table of `extract_bank_names` (lines 289-297). -/
def common_banks : List String :=
  ["Bancolombia", "Davivienda", "BBVA Colombia", "Banco de Bogotá",
   "Banco de Occidente", "Banco Popular", "Banco AV Villas",
   "Banco Caja Social", "Bancoomeva", "Colpatria", "Itaú",
   "Chase", "Bank of America", "Wells Fargo", "Citibank", "Capital One",
   "US Bank", "PNC", "TD Bank", "Truist", "Fifth Third", "Santander"]

/-- The `banks` list of `extract_bank_names` as built before
deduplication: logo descriptions in order, then every registry name whose
lower-case form occurs in the lower-cased text. -/
def collectBanks (a : VisionAnnotations) : List String :=
  a.logoAnnotations ++
    common_banks.filter (fun b =>
      infixOf (pyLowerS b).data (pyLowerS (extract_text_from_annotations a)).data)

/-- Model of the set round trip at line 302: list(set(banks)) returns the distinct elements of
`banks` in an order chosen by the runtime (Python string hashing is
salted per process, so the order is not a function of the input).  The
embedding therefore takes the chosen ordering as a parameter constrained
only by what `list(set(...))` guarantees. -/
def SetListOrder (f : List String → List String) : Prop :=
  ∀ l : List String, (f l).Nodup ∧ ∀ x, x ∈ f l ↔ x ∈ l

/-- Function `extract_bank_names` (lines 277-302), parameterised by the set
iteration order. -/
def extract_bank_names (a : VisionAnnotations) (ord : List String → List String) :
    List String :=
  ord (collectBanks a)

structure Transaction where
  raw_text : String
  amounts : List AmountInfo
  dates : List String
  time : Option String
  merchant : Option String
  card_info : Option CardInfo
  reference_numbers : List String
  account_numbers : List String
  transaction_type : String
  banks : List String
  document_labels : List String
deriving DecidableEq, Repr

/-- Function `parse_transaction` (lines 304-342) from the decoded annotation
object (file reading and the `responses` unwrapping happen before this
point and are bijective on the modelled data). -/
def parse_transaction (a : VisionAnnotations) (ord : List String → List String) :
    Transaction :=
  let full_text := extract_text_from_annotations a
  let banks := extract_bank_names a ord
  { raw_text := full_text
    amounts := extract_amounts full_text banks
    dates := extract_dates full_text
    time := extract_time full_text
    merchant := extract_merchant full_text
    card_info := extract_card_info full_text
    reference_numbers := extract_reference_numbers full_text
    account_numbers := extract_account_numbers full_text
    transaction_type := detect_transaction_type full_text
    banks := banks
    document_labels := a.labelAnnotations.take 5 }

structure Validation where
  is_valid : Bool
  warnings : List String
  errors : List String
deriving DecidableEq, Repr

/-- Function `validate_transaction` (lines 344-373): `is_valid` starts true, is
set false when no amounts were found, warnings accumulate in order, and
`is_valid` is forced false again at the end whenever `errors` is
non-empty. -/
def validate_transaction (t : Transaction) : Validation :=
  let errs := if t.amounts.isEmpty then ["No monetary amounts detected"] else []
  let v1 := if t.amounts.isEmpty then false else true
  let w1 := if t.dates.isEmpty then ["No dates detected"] else []
  let w2 := if t.transaction_type == "UNKNOWN" then ["Could not determine transaction type"]
            else []
  let w3 := if t.reference_numbers.isEmpty then ["No reference numbers detected"] else []
  let w4 := if decide (5 < t.amounts.length) then
              ["Multiple amounts detected (" ++ toString t.amounts.length ++ ")"]
            else []
  let v2 := if errs.isEmpty then v1 else false
  { is_valid := v2, warnings := w1 ++ w2 ++ w3 ++ w4, errors := errs }

/-- One run of the pipeline of `main` (lines 375-457) on a decoded input,
up to the serialised `{transaction, validation}` pair, for one set
iteration order. -/
def pipeline (a : VisionAnnotations) (ord : List String → List String) :
    Transaction × Validation :=
  let t := parse_transaction a ord
  (t, validate_transaction t)

/-- Characters a captured priority-1/2/3 numeral can contain. -/
def copNumCh (c : Char) : Bool := c.isDigit || c == '.' || c == ','

/-- No two adjacent whitespace characters. -/
def singleSpaced : List Char → Bool
  | [] => true
  | [_] => true
  | a :: b :: t => !(isSpaceCh a && isSpaceCh b) && singleSpaced (b :: t)

/-- A record with no extracted amounts (witness input). -/
def trNoAmounts : Transaction :=
  ⟨"", [], [], none, none, none, [], [], "UNKNOWN", [], []⟩

/-- A record with one extracted amount (witness input). -/
def trOneAmount : Transaction :=
  ⟨"", [⟨1, "COP", "COP 1,00"⟩], [], none, none, none, [], [], "UNKNOWN", [], []⟩

/-- One concrete admissible iteration order for a Python set. -/
def dedupOrder : List String → List String := fun l => l.dedup

/-- Another concrete admissible iteration order for a Python set. -/
def dedupRevOrder : List String → List String := fun l => l.dedup.reverse

/-- An input whose text mentions two registry banks. -/
def annTwoBanks : VisionAnnotations := ⟨["Bancolombia Davivienda"], [], []⟩

lemma setListOrder_dedup : SetListOrder dedupOrder := by
  intro l
  exact ⟨l.nodup_dedup, fun x => List.mem_dedup⟩

lemma setListOrder_dedupRev : SetListOrder dedupRevOrder := by
  intro l
  refine ⟨List.nodup_reverse.mpr l.nodup_dedup, fun x => ?_⟩
  show x ∈ (l.dedup).reverse ↔ x ∈ l
  rw [List.mem_reverse, List.mem_dedup]

/-- C1: the amount-extraction cascade applies priorities 1-3
unconditionally and accumulates all their candidates; the priority-4
fallback list is the output exactly when priorities 1-3 produced no
candidate, and otherwise contributes nothing. -/
theorem cascade_priority_gate (text : String) (banks : List String) :
    (copCandidatesL text.data ++ usdCandidatesL text.data ++
        dollarCandidatesL (is_colombian_bank banks) text.data ≠ [] →
      extract_amounts text banks =
        copCandidatesL text.data ++ usdCandidatesL text.data ++
          dollarCandidatesL (is_colombian_bank banks) text.data) ∧
    (copCandidatesL text.data ++ usdCandidatesL text.data ++
        dollarCandidatesL (is_colombian_bank banks) text.data = [] →
      extract_amounts text banks =
        fallbackCandidatesL (is_colombian_bank banks) text.data) := by
  constructor <;> intro h
  · simp only [extract_amounts, amountCascade]
    rw [if_neg (by simpa [List.isEmpty_iff] using h)]
  · simp only [extract_amounts, amountCascade]
    rw [if_pos (by simpa [List.isEmpty_iff] using h)]

theorem cascade_priority_gate_wit :
    (copCandidatesL "COP 1,00".data ++ usdCandidatesL "COP 1,00".data ++
        dollarCandidatesL (is_colombian_bank []) "COP 1,00".data ≠ []) ∧
    extract_amounts "COP 1,00" [] =
      copCandidatesL "COP 1,00".data ++ usdCandidatesL "COP 1,00".data ++
        dollarCandidatesL (is_colombian_bank []) "COP 1,00".data :=
  ⟨by decide, (cascade_priority_gate "COP 1,00" []).1 (by decide)⟩

/-- C3: on a text containing the phrase a las 20:33 (and no earlier time
match), `extract_time` returns the string 20:33 None, not 20:33: the
first pattern matches, its optional meridiem group is None, and the
f-string renders None as the four letters None, which the final strip
does not remove. -/
theorem time_meridiem_rendered_none :
    extract_time "a las 20:33" = some "20:33 None" ∧
    extract_time "Compraste COP 51.558,00 en EXITO SABANETA con T.Cred *9095 a las 20:33" =
      some "20:33 None" := by
  constructor <;> decide

/-- C4: the validator marks a record invalid exactly when its error list
is non-empty, which happens exactly when the amounts sequence is empty;
in that case the error list is exactly the no-amounts message, and any
record with amounts is valid whatever warnings are emitted. -/
theorem validator_amounts_iff (t : Transaction) :
    ((validate_transaction t).is_valid = false ↔ (validate_transaction t).errors ≠ []) ∧
    ((validate_transaction t).errors ≠ [] ↔ t.amounts = []) ∧
    (t.amounts = [] →
      (validate_transaction t).errors = ["No monetary amounts detected"]) ∧
    (t.amounts ≠ [] → (validate_transaction t).is_valid = true) := by
  rcases ht : t.amounts with _ | ⟨a, as⟩ <;> simp [validate_transaction, ht]

theorem validator_amounts_iff_wit :
    (validate_transaction trNoAmounts).errors = ["No monetary amounts detected"] ∧
    (validate_transaction trOneAmount).is_valid = true :=
  ⟨(validator_amounts_iff trNoAmounts).2.2.1 (by decide),
   (validator_amounts_iff trOneAmount).2.2.2 (by decide)⟩

/-- C6: the regional-currency flag is set exactly when some detected
name, lower-cased, is literally an element of the registry; a name that
only contains a registry entry as a proper substring does not set it. -/
theorem colombian_flag_exact_match :
    (∀ banks : List String,
      is_colombian_bank banks = true ↔ ∃ b ∈ banks, pyLowerS b ∈ COLOMBIAN_BANKS) ∧
    is_colombian_bank ["Bancolombia S.A."] = false := by
  constructor
  · intro banks
    simp [is_colombian_bank, List.any_eq_true, List.elem_iff]
  · decide

/-- C9: transaction-type classification is substring containment on the
lower-cased text: any text containing atm (even inside a longer word)
and none of the purchase or wire-transfer keywords classifies as
WITHDRAWAL. -/
theorem atm_substring_withdrawal (t : String)
    (h1 : infixOf "atm".data (pyLowerL t.data) = true)
    (h2 : (["compraste", "compra", "purchase"].any
        (fun k => infixOf k.data (pyLowerL t.data))) = false)
    (h3 : (["transferiste", "transferencia", "wire transfer", "wire"].any
        (fun k => infixOf k.data (pyLowerL t.data))) = false) :
    detect_transaction_type t = "WITHDRAWAL" := by
  have h4 : (["retiraste", "retiro", "withdrawal", "withdraw", "atm"].any
      (fun k => infixOf k.data (pyLowerL t.data))) = true := by
    simp [List.any_eq_true]
    exact Or.inr (Or.inr (Or.inr (Or.inr h1)))
  simp [detect_transaction_type, h2, h3, h4]

theorem atm_substring_withdrawal_wit :
    (infixOf "atm".data (pyLowerL "Atmosphere lounge".data) = true) ∧
    detect_transaction_type "Atmosphere lounge" = "WITHDRAWAL" :=
  ⟨by decide, atm_substring_withdrawal "Atmosphere lounge" (by decide) (by decide) (by decide)⟩

/-- C2 counterexample: a regional-bank text containing the substring
composed of a dollar sign, space and 200.000 for which the cascade yields
no candidate of value 200000 at all (the match extends over the decimal
tail, giving 200000.45), refuting the "for text containing" form of the
claim. -/
theorem dollar_regional_contain_cex :
    infixOf "$ 200.000".data "$ 200.000,45".data = true ∧
    is_colombian_bank ["Bancolombia"] = true ∧
    ∀ c ∈ extract_amounts "$ 200.000,45" ["Bancolombia"],
      ¬ (c.amount = 200000 ∧ c.currency = "COP") := by
  refine ⟨by decide, by decide, ?_⟩
  decide

/-- C2 (amended): for a priority-3 match under a regional context whose
numeral has periods but no comma, the periods are thousands separators
exactly when the final period-delimited segment has three characters,
and otherwise the numeral is read with the period as a decimal point;
and the cascade on the exact text consisting of a dollar sign, a space
and 200.000 with a regional bank yields the single candidate 200000 COP. -/
theorem dollar_regional_period_rule :
    (∀ m : List Char, m.contains '.' = true → m.contains ',' = false →
      colParse m =
        (if ((splitOnDot m).getLastD []).length = 3 then pyFloat (removeAll '.' m)
         else pyFloat m)) ∧
    extract_amounts "$ 200.000" ["Bancolombia"] = [⟨200000, "COP", "$ 200.000"⟩] := by
  constructor
  · intro m h1 h2
    have hmem : '.' ∈ m := by
      rw [← List.elem_iff]
      exact h1
    have hcount : 1 ≤ List.count '.' m := List.count_pos_iff.mpr hmem
    have hnc : ',' ∉ m := by
      rw [← List.elem_iff]
      simp [List.contains] at h2
      simp [h2]
    by_cases hlen : ((splitOnDot m).getLastD []).length = 3
    · simp [colParse, h1, h2, hcount, hlen, hmem, hnc]
    · simp [colParse, h1, h2, hcount, hlen, hmem, hnc]
  · decide

theorem dollar_regional_period_rule_wit :
    ("200.000".data.contains '.' = true) ∧ ("200.000".data.contains ',' = false) ∧
    colParse "200.000".data = pyFloat (removeAll '.' "200.000".data) := by
  refine ⟨by decide, by decide, ?_⟩
  rw [dollar_regional_period_rule.1 "200.000".data (by decide) (by decide)]
  decide

lemma setListOrder_any (f : List String → List String) (hf : SetListOrder f)
    (l : List String) (p : String → Bool) : (f l).any p = l.any p := by
  have h := (hf l).2
  by_cases hx : ∃ x ∈ l, p x = true
  · obtain ⟨x, hx1, hx2⟩ := hx
    rw [List.any_eq_true.mpr ⟨x, (h x).mpr hx1, hx2⟩, List.any_eq_true.mpr ⟨x, hx1, hx2⟩]
  · have h1 : (f l).any p = false := by
      rw [Bool.eq_false_iff]
      intro hc
      obtain ⟨x, hx1, hx2⟩ := List.any_eq_true.mp hc
      exact hx ⟨x, (h x).mp hx1, hx2⟩
    have h2 : l.any p = false := by
      rw [Bool.eq_false_iff]
      intro hc
      exact hx (List.any_eq_true.mp hc)
    rw [h1, h2]

lemma colombianFlag_order (f : List String → List String) (hf : SetListOrder f)
    (l : List String) : is_colombian_bank (f l) = is_colombian_bank l :=
  setListOrder_any f hf l _

lemma validate_congr (t1 t2 : Transaction) (h1 : t1.amounts = t2.amounts)
    (h2 : t1.dates = t2.dates) (h3 : t1.transaction_type = t2.transaction_type)
    (h4 : t1.reference_numbers = t2.reference_numbers) :
    validate_transaction t1 = validate_transaction t2 := by
  simp [validate_transaction, h1, h2, h3, h4]

/-- C7 (amended): the pipeline is a function of the input document and of
the set iteration order applied to the detected-banks list; for any two
admissible orders every output field agrees — including every amount and
the whole validation — except that the banks list may be permuted (it
still holds exactly the same names). -/
theorem pipeline_deterministic_up_to_banks (a : VisionAnnotations)
    (f g : List String → List String) (hf : SetListOrder f) (hg : SetListOrder g) :
    (parse_transaction a f).raw_text = (parse_transaction a g).raw_text ∧
    (parse_transaction a f).amounts = (parse_transaction a g).amounts ∧
    (parse_transaction a f).dates = (parse_transaction a g).dates ∧
    (parse_transaction a f).time = (parse_transaction a g).time ∧
    (parse_transaction a f).merchant = (parse_transaction a g).merchant ∧
    (parse_transaction a f).card_info = (parse_transaction a g).card_info ∧
    (parse_transaction a f).reference_numbers = (parse_transaction a g).reference_numbers ∧
    (parse_transaction a f).account_numbers = (parse_transaction a g).account_numbers ∧
    (parse_transaction a f).transaction_type = (parse_transaction a g).transaction_type ∧
    (parse_transaction a f).document_labels = (parse_transaction a g).document_labels ∧
    (∀ x, x ∈ (parse_transaction a f).banks ↔ x ∈ (parse_transaction a g).banks) ∧
    validate_transaction (parse_transaction a f) =
      validate_transaction (parse_transaction a g) := by
  have hb : is_colombian_bank (extract_bank_names a f) =
      is_colombian_bank (extract_bank_names a g) := by
    unfold extract_bank_names
    rw [colombianFlag_order f hf, colombianFlag_order g hg]
  have hamt : (parse_transaction a f).amounts = (parse_transaction a g).amounts := by
    show extract_amounts _ (extract_bank_names a f) =
      extract_amounts _ (extract_bank_names a g)
    unfold extract_amounts
    rw [hb]
  refine ⟨rfl, hamt, rfl, rfl, rfl, rfl, rfl, rfl, rfl, rfl, fun x => ?_, ?_⟩
  · show x ∈ f (collectBanks a) ↔ x ∈ g (collectBanks a)
    exact ((hf (collectBanks a)).2 x).trans (((hg (collectBanks a)).2 x).symm)
  · exact validate_congr _ _ hamt rfl rfl rfl

theorem pipeline_deterministic_up_to_banks_wit :
    SetListOrder dedupOrder ∧ SetListOrder dedupRevOrder ∧
    validate_transaction (parse_transaction annTwoBanks dedupOrder) =
      validate_transaction (parse_transaction annTwoBanks dedupRevOrder) ∧
    (parse_transaction annTwoBanks dedupOrder).amounts =
      (parse_transaction annTwoBanks dedupRevOrder).amounts :=
  ⟨setListOrder_dedup, setListOrder_dedupRev,
   (pipeline_deterministic_up_to_banks annTwoBanks dedupOrder dedupRevOrder
      setListOrder_dedup setListOrder_dedupRev).2.2.2.2.2.2.2.2.2.2.2,
   (pipeline_deterministic_up_to_banks annTwoBanks dedupOrder dedupRevOrder
      setListOrder_dedup setListOrder_dedupRev).2.1⟩

/-- C7 counterexample: two runs of the pipeline on the same input, each
with an order that list(set(...)) is allowed to produce (Python string
hashing is salted per process), give different serialised outputs: the
banks list comes out in different orders. -/
theorem pipeline_set_order_cex :
    SetListOrder dedupOrder ∧ SetListOrder dedupRevOrder ∧
    pipeline annTwoBanks dedupOrder ≠ pipeline annTwoBanks dedupRevOrder :=
  ⟨setListOrder_dedup, setListOrder_dedupRev,
   fun h => absurd (congrArg (fun p => p.1.banks) h) (by decide)⟩

lemma orElse_some {α : Type} (x y : Option α) (v : α) (h : (x <|> y) = some v) :
    x = some v ∨ y = some v := by
  cases x with
  | none => right; simpa using h
  | some w => left; simpa using h

lemma scanAllF_forall {α : Type} (m : List Char → Option (α × Nat)) (P : α → Prop)
    (hm : ∀ s a n, m s = some (a, n) → P a) :
    ∀ (fuel : Nat) (s : List Char) (a : α), a ∈ scanAllF m fuel s → P a := by
  intro fuel
  induction fuel with
  | zero => intro s a h; simp [scanAllF] at h
  | succ f ih =>
    intro s a h
    cases s with
    | nil => simp [scanAllF] at h
    | cons c cs =>
      rw [scanAllF] at h
      cases hm2 : m (c :: cs) with
      | none =>
        rw [hm2] at h
        exact ih cs a h
      | some p =>
        obtain ⟨b, n⟩ := p
        rw [hm2] at h
        rcases List.mem_cons.mp h with h | h
        · exact h ▸ hm _ b n hm2
        · exact ih _ a h

lemma optionMap_fst {γ δ : Type} (o : Option (List Char × γ)) (g : List Char × γ → δ)
    (a : List Char) (n : δ) (h : (o.map (fun p => (p.1, g p))) = some (a, n)) :
    ∃ k, o = some (a, k) := by
  cases o with
  | none => simp at h
  | some p =>
    obtain ⟨x, y⟩ := p
    simp only [Option.map, Option.some.injEq, Prod.mk.injEq] at h
    exact ⟨y, by rw [h.1]⟩

lemma exactDigits_shape : ∀ (n : Nat) (s ds r : List Char),
    exactDigits n s = some (ds, r) → ds.length = n ∧ ds.all Char.isDigit = true := by
  intro n
  induction n with
  | zero =>
    intro s ds r h
    simp only [exactDigits, Option.some.injEq, Prod.mk.injEq] at h
    simp [← h.1]
  | succ k ih =>
    intro s ds r h
    cases s with
    | nil => simp [exactDigits] at h
    | cons c cs =>
      simp only [exactDigits] at h
      by_cases hd : c.isDigit
      · rw [if_pos hd] at h
        cases hx : exactDigits k cs with
        | none => rw [hx] at h; simp at h
        | some p =>
          obtain ⟨ds1, r1⟩ := p
          rw [hx] at h
          simp only [Option.map, Option.some.injEq, Prod.mk.injEq] at h
          have hih := ih cs ds1 r1 hx
          rw [← h.1]
          simp [hih.1, hd, hih.2]
      · rw [if_neg hd] at h; simp at h

lemma matchMask_shape (s a : List Char) (n : Nat) (h : matchMask s = some (a, n)) :
    a.length = 4 ∧ a.all Char.isDigit = true := by
  simp only [matchMask] at h
  split at h
  · exact absurd h (by simp)
  · cases hx : exactDigits 4 (takeClass (fun c => c == '*') s).2 with
    | none => rw [hx] at h; simp at h
    | some p =>
      obtain ⟨ds, r⟩ := p
      rw [hx] at h
      simp only [Option.some.injEq, Prod.mk.injEq] at h
      rw [← h.1]
      exact exactDigits_shape 4 _ ds r hx

lemma acctRest2_shape (s a : List Char) (n : Nat) (h : acctRest2 s = some (a, n)) :
    a.length = 4 ∧ a.all Char.isDigit = true := by
  simp only [acctRest2] at h
  cases hx : exactDigits 4
      (takeClass (fun c => c == '*') (takeClass isSpaceCh s).2).2 with
  | none => rw [hx] at h; simp at h
  | some p =>
    obtain ⟨ds, r⟩ := p
    rw [hx] at h
    simp only [Option.some.injEq, Prod.mk.injEq] at h
    rw [← h.1]
    exact exactDigits_shape 4 _ ds r hx

lemma acctRest_shape (s a : List Char) (n : Nat) (h : acctRest s = some (a, n)) :
    a.length = 4 ∧ a.all Char.isDigit = true := by
  simp only [acctRest] at h
  rcases orElse_some _ _ _ h with h1 | h1
  · split at h1
    · obtain ⟨k, hk⟩ := optionMap_fst _ _ _ _ h1
      exact acctRest2_shape _ _ _ hk
    · exact absurd h1 (by simp)
  · exact acctRest2_shape _ _ _ h1

lemma acctOpt_shape (s a : List Char) (n : Nat) (h : acctOpt s = some (a, n)) :
    a.length = 4 ∧ a.all Char.isDigit = true := by
  simp only [acctOpt] at h
  rcases orElse_some _ _ _ h with h1 | h1
  · split at h1
    · obtain ⟨k, hk⟩ := optionMap_fst _ _ _ _ h1
      exact acctRest_shape _ _ _ hk
    · exact absurd h1 (by simp)
  · rcases orElse_some _ _ _ h1 with h2 | h2
    · split at h2
      · obtain ⟨k, hk⟩ := optionMap_fst _ _ _ _ h2
        exact acctRest_shape _ _ _ hk
      · exact absurd h2 (by simp)
    · rcases orElse_some _ _ _ h2 with h3 | h3
      · split at h3
        · obtain ⟨k, hk⟩ := optionMap_fst _ _ _ _ h3
          exact acctRest_shape _ _ _ hk
        · exact absurd h3 (by simp)
      · exact acctRest_shape _ _ _ h3

lemma acctAfterLabel_shape (L : Nat) (s a : List Char) (n : Nat)
    (h : acctAfterLabel L s = some (a, n)) :
    a.length = 4 ∧ a.all Char.isDigit = true := by
  simp only [acctAfterLabel] at h
  obtain ⟨k, hk⟩ := optionMap_fst _ _ _ _ h
  exact acctOpt_shape _ _ _ hk

lemma matchAcct_shape (s a : List Char) (n : Nat) (h : matchAcct s = some (a, n)) :
    a.length = 4 ∧ a.all Char.isDigit = true := by
  simp only [matchAcct] at h
  rcases orElse_some _ _ _ h with h1 | h1 <;>
  · split at h1
    · exact acctAfterLabel_shape _ _ _ _ h1
    · exact absurd h1 (by simp)

/-- C8: every string the account-number extractor returns is exactly four
digits, whatever the input text contains: both patterns capture a group
of exactly four digit characters. -/
theorem account_last4_shape (text : String) (s : String)
    (h : s ∈ extract_account_numbers text) :
    s.length = 4 ∧ s.data.all Char.isDigit = true := by
  simp only [extract_account_numbers, List.mem_map] at h
  obtain ⟨l, hl, rfl⟩ := h
  have hshape : l.length = 4 ∧ l.all Char.isDigit = true := by
    rcases List.mem_append.mp hl with h1 | h1
    · exact scanAllF_forall matchMask
        (fun a => a.length = 4 ∧ a.all Char.isDigit = true)
        (fun s a n hm => matchMask_shape s a n hm) _ _ _ h1
    · exact scanAllF_forall matchAcct
        (fun a => a.length = 4 ∧ a.all Char.isDigit = true)
        (fun s a n hm => matchAcct_shape s a n hm) _ _ _ h1
  exact hshape

theorem account_last4_shape_wit :
    ("1234" ∈ extract_account_numbers "Acct #: ****123456 done") ∧
    ("1234" : String).length = 4 ∧ ("1234" : String).data.all Char.isDigit = true :=
  ⟨by decide, account_last4_shape "Acct #: ****123456 done" "1234" (by decide)⟩

lemma upper_not_space (c : Char) (h : isUpperCh c = true) : isSpaceCh c = false := by
  rcases hc : isSpaceCh c
  · rfl
  · exfalso
    simp only [isUpperCh, Bool.and_eq_true, decide_eq_true_eq] at h
    simp only [isSpaceCh, Bool.or_eq_true, beq_iff_eq, or_assoc] at hc
    rcases hc with rfl | rfl | rfl | rfl | rfl | rfl <;> exact absurd h (by decide)

lemma lazyCapTo_shape (cls : Char → Bool) (term : List Char → Bool) :
    ∀ (s t : List Char), lazyCapTo cls term s = some t → t ≠ [] ∧ t.all cls = true := by
  intro s
  induction s with
  | nil => intro t h; simp [lazyCapTo] at h
  | cons c cs ih =>
    intro t h
    simp only [lazyCapTo] at h
    by_cases hc : cls c
    · rw [if_pos hc] at h
      by_cases hterm : term cs
      · rw [if_pos hterm] at h
        simp only [Option.some.injEq] at h
        subst h
        simp [hc]
      · rw [if_neg hterm] at h
        cases hx : lazyCapTo cls term cs with
        | none => rw [hx] at h; simp at h
        | some u =>
          rw [hx] at h
          simp only [Option.map, Option.some.injEq] at h
          subst h
          have := ih u hx
          simp [hc, this.2]
    · rw [if_neg hc] at h; simp at h

lemma searchFirst_ex {α : Type} (m : List Char → Option α) :
    ∀ (s : List Char) (v : α), searchFirst m s = some v → ∃ s2, m s2 = some v := by
  intro s
  induction s with
  | nil => intro v h; simp [searchFirst] at h
  | cons c t ih =>
    intro v h
    simp only [searchFirst] at h
    rcases orElse_some _ _ _ h with h1 | h1
    · exact ⟨c :: t, h1⟩
    · exact ih v h1

/-- Shape of every capture of the three merchant patterns. -/
def MerCapShape (cap : List Char) : Prop :=
  ∃ hd t2, cap = hd :: t2 ∧ isUpperCh hd = true ∧ t2.all isMerCh = true

lemma merLazy_shape (term : List Char → Bool) (hd : Char) (t cap0 : List Char)
    (hu : isUpperCh hd = true)
    (h : (lazyCapTo isMerCh term t).map (fun u => hd :: u) = some cap0) :
    MerCapShape cap0 := by
  cases hx : lazyCapTo isMerCh term t with
  | none => rw [hx] at h; simp at h
  | some u =>
    rw [hx] at h
    simp only [Option.map, Option.some.injEq] at h
    exact ⟨hd, u, h.symm, hu, (lazyCapTo_shape _ _ _ _ hx).2⟩

lemma mer1At_shape (s cap : List Char) (h : mer1At s = some cap) : MerCapShape cap := by
  simp only [mer1At] at h
  split at h
  · split at h
    · exact absurd h (by simp)
    · split at h
      · split at h
        · exact merLazy_shape _ _ _ _ (by assumption) h
        · exact absurd h (by simp)
      · exact absurd h (by simp)
  · exact absurd h (by simp)

lemma mer2At_shape (s cap : List Char) (h : mer2At s = some cap) : MerCapShape cap := by
  simp only [mer2At] at h
  split at h
  · split at h
    · exact absurd h (by simp)
    · split at h
      · split at h
        · exact merLazy_shape _ _ _ _ (by assumption) h
        · exact absurd h (by simp)
      · exact absurd h (by simp)
  · exact absurd h (by simp)

lemma mer3At_shape (s cap : List Char) (h : mer3At s = some cap) : MerCapShape cap := by
  simp only [mer3At] at h
  split at h
  · split at h
    · split at h
      · exact merLazy_shape _ _ _ _ (by assumption) h
      · exact absurd h (by simp)
    · exact absurd h (by simp)
  · exact absurd h (by simp)

lemma all_of_sublist {p : Char → Bool} {l1 l2 : List Char} (hs : l1.Sublist l2)
    (h : l2.all p = true) : l1.all p = true := by
  rw [List.all_eq_true] at h ⊢
  exact fun x hx => h x (hs.subset hx)

lemma stripWs_all {p : Char → Bool} {l : List Char} (h : l.all p = true) :
    (stripWs l).all p = true := by
  unfold stripWs
  have h1 : (l.dropWhile isSpaceCh).all p = true :=
    all_of_sublist (List.dropWhile_sublist _) h
  have h2 : (l.dropWhile isSpaceCh).reverse.all p = true := by
    rwa [List.all_reverse]
  have h3 : ((l.dropWhile isSpaceCh).reverse.dropWhile isSpaceCh).all p = true :=
    all_of_sublist (List.dropWhile_sublist _) h2
  rwa [List.all_reverse]

lemma dropWhile_append_last (p : Char → Bool) (h : Char) (hp : p h = false) :
    ∀ u : List Char, ∃ u2, (u ++ [h]).dropWhile p = u2 ++ [h] := by
  intro u
  induction u with
  | nil => exact ⟨[], by simp [List.dropWhile, hp]⟩
  | cons a u ih =>
    by_cases ha : p a
    · obtain ⟨u2, hu2⟩ := ih
      exact ⟨u2, by simp [List.dropWhile, ha, hu2]⟩
    · exact ⟨a :: u, by simp [List.dropWhile, ha]⟩

lemma stripWs_cons (hd : Char) (t : List Char) (hh : isSpaceCh hd = false) :
    ∃ t2, stripWs (hd :: t) = hd :: t2 := by
  unfold stripWs
  have h1 : (hd :: t).dropWhile isSpaceCh = hd :: t := by
    simp [List.dropWhile, hh]
  rw [h1, List.reverse_cons]
  obtain ⟨u2, hu2⟩ := dropWhile_append_last isSpaceCh hd hh t.reverse
  rw [hu2, List.reverse_append]
  exact ⟨u2.reverse, rfl⟩

lemma collapseWs_cons_nonspace (d : Char) (cs : List Char) (hd : isSpaceCh d = false) :
    ∃ t, collapseWs (d :: cs) = d :: t := by
  cases cs with
  | nil => exact ⟨[], by simp [collapseWs, hd]⟩
  | cons e cs2 => exact ⟨collapseWs (e :: cs2), by simp [collapseWs, hd]⟩

lemma collapseWs_all : ∀ l : List Char,
    l.all (fun c => isUpperCh c || isSpaceCh c) = true →
    (collapseWs l).all (fun c => isUpperCh c || c == ' ') = true := by
  intro l
  induction l using collapseWs.induct with
  | case1 => intro _; simp [collapseWs]
  | case2 c hc => intro _; simp [collapseWs, hc]
  | case3 c hc =>
    intro h
    simp only [List.all_cons, List.all_nil, Bool.and_true, Bool.or_eq_true] at h
    rcases h with h | h
    · simp [collapseWs, hc, h]
    · exact absurd h hc
  | case4 c d cs hcd ih =>
    intro h
    simp only [List.all_cons, Bool.and_eq_true, Bool.or_eq_true] at h
    have ht := ih (by
      simp only [List.all_cons, Bool.and_eq_true, Bool.or_eq_true]
      exact ⟨h.2.1, h.2.2⟩)
    simpa [collapseWs, hcd] using ht
  | case5 c d cs hcd ih =>
    intro h
    simp only [List.all_cons, Bool.and_eq_true, Bool.or_eq_true] at h
    have ht := ih (by
      simp only [List.all_cons, Bool.and_eq_true, Bool.or_eq_true]
      exact ⟨h.2.1, h.2.2⟩)
    simp only [collapseWs, hcd, if_false]
    by_cases hc : isSpaceCh c
    · simp [hc, ht]
    · rcases h.1 with h1 | h1
      · simp [hc, h1, ht]
      · exact absurd h1 hc

lemma collapseWs_singleSpaced : ∀ l : List Char, singleSpaced (collapseWs l) = true := by
  intro l
  induction l using collapseWs.induct with
  | case1 => simp [collapseWs, singleSpaced]
  | case2 c hc => simp [collapseWs, hc, singleSpaced]
  | case3 c hc => simp [collapseWs, hc, singleSpaced]
  | case4 c d cs hcd ih => simpa [collapseWs, hcd] using ih
  | case5 c d cs hcd ih =>
    simp only [collapseWs, hcd, if_false]
    have hd : isSpaceCh c = false ∨ isSpaceCh d = false := by
      rcases hx : isSpaceCh c
      · exact Or.inl rfl
      · rcases hy : isSpaceCh d
        · exact Or.inr rfl
        · exact absurd (by simp [hx, hy]) hcd
    rcases hy : isSpaceCh d
    · obtain ⟨t, ht⟩ := collapseWs_cons_nonspace d cs hy
      rw [ht]
      have hns : (isSpaceCh (if isSpaceCh c = true then ' ' else c) && isSpaceCh d) = false := by
        simp [hy]
      simp only [singleSpaced, Bool.and_eq_true, Bool.not_eq_true']
      refine ⟨by simp [hy], ?_⟩
      rw [← ht]
      exact ih
    · have hc : isSpaceCh c = false := by
        rcases hd with h | h
        · exact h
        · rw [h] at hy; exact absurd hy (by simp)
      have hcif : (if isSpaceCh c = true then ' ' else c) = c := by simp [hc]
      rw [hcif]
      cases hrest : collapseWs (d :: cs) with
      | nil => simp [singleSpaced]
      | cons r0 rt =>
        have hih := ih
        rw [hrest] at hih
        simp [singleSpaced, hc, hih]

lemma cleanMerchant_shape (cap : List Char) (h : MerCapShape cap) :
    (cleanMerchant cap).data ≠ [] ∧
    (∃ h2 r2, (cleanMerchant cap).data = h2 :: r2 ∧ isUpperCh h2 = true) ∧
    (cleanMerchant cap).data.all (fun c => isUpperCh c || c == ' ') = true ∧
    singleSpaced (cleanMerchant cap).data = true := by
  obtain ⟨hd, t2, rfl, hu, ht⟩ := h
  have hall : (hd :: t2).all (fun c => isUpperCh c || isSpaceCh c) = true := by
    simp only [List.all_cons, Bool.and_eq_true, Bool.or_eq_true]
    exact ⟨Or.inl hu, by simpa [List.all_eq_true, isMerCh] using ht⟩
  have hns : isSpaceCh hd = false := upper_not_space hd hu
  obtain ⟨t3, ht3⟩ := stripWs_cons hd t2 hns
  have hstr : (stripWs (hd :: t2)).all (fun c => isUpperCh c || isSpaceCh c) = true :=
    stripWs_all hall
  have hdata : (cleanMerchant (hd :: t2)).data = collapseWs (stripWs (hd :: t2)) := rfl
  rw [hdata, ht3]
  obtain ⟨t4, ht4⟩ := collapseWs_cons_nonspace hd t3 hns
  rw [ht3] at hstr
  refine ⟨?_, ?_, collapseWs_all _ hstr, collapseWs_singleSpaced _⟩
  · rw [ht4]; simp
  · exact ⟨hd, t4, ht4, hu⟩

/-- C10: whenever the merchant extractor returns a value it is non-empty,
begins with an uppercase ASCII letter and consists only of uppercase
ASCII letters and single spaces; a lower-case merchant phrase is never
matched. -/
theorem merchant_shape_case :
    (∀ (t v : String), extract_merchant t = some v →
      v.data ≠ [] ∧ (∃ h2 r2, v.data = h2 :: r2 ∧ isUpperCh h2 = true) ∧
      v.data.all (fun c => isUpperCh c || c == ' ') = true ∧
      singleSpaced v.data = true) ∧
    extract_merchant "at starbucks" = none := by
  constructor
  · intro t v h
    simp only [extract_merchant] at h
    cases h1 : searchFirst mer1At t.data with
    | some cap =>
      rw [h1] at h
      simp only [Option.some.injEq] at h
      obtain ⟨s2, hs2⟩ := searchFirst_ex mer1At t.data cap h1
      exact h ▸ cleanMerchant_shape cap (mer1At_shape s2 cap hs2)
    | none =>
      rw [h1] at h
      cases h2 : searchFirst mer2At t.data with
      | some cap =>
        rw [h2] at h
        simp only [Option.some.injEq] at h
        obtain ⟨s2, hs2⟩ := searchFirst_ex mer2At t.data cap h2
        exact h ▸ cleanMerchant_shape cap (mer2At_shape s2 cap hs2)
      | none =>
        rw [h2] at h
        cases h3 : searchFirst mer3At t.data with
        | some cap =>
          rw [h3] at h
          simp only [Option.some.injEq] at h
          obtain ⟨s2, hs2⟩ := searchFirst_ex mer3At t.data cap h3
          exact h ▸ cleanMerchant_shape cap (mer3At_shape s2 cap hs2)
        | none => rw [h3] at h; exact absurd h (by simp)
  · decide

theorem merchant_shape_case_wit :
    extract_merchant "Compraste en EXITO SABANETA con tarjeta" = some "EXITO SABANETA" ∧
    (("EXITO SABANETA" : String).data ≠ [] ∧
      (∃ h2 r2, ("EXITO SABANETA" : String).data = h2 :: r2 ∧ isUpperCh h2 = true) ∧
      ("EXITO SABANETA" : String).data.all (fun c => isUpperCh c || c == ' ') = true ∧
      singleSpaced ("EXITO SABANETA" : String).data = true) :=
  ⟨by decide,
   merchant_shape_case.1 "Compraste en EXITO SABANETA con tarjeta" "EXITO SABANETA" (by decide)⟩

lemma all_imp {p q : Char → Bool} (h : ∀ c, p c = true → q c = true) {l : List Char}
    (hl : l.all p = true) : l.all q = true := by
  rw [List.all_eq_true] at hl ⊢
  exact fun x hx => h x (hl x hx)

lemma takeClass_dec (p : Char → Bool) : ∀ l : List Char,
    l = (takeClass p l).1 ++ (takeClass p l).2 ∧ (takeClass p l).1.all p = true := by
  intro l
  induction l with
  | nil => simp [takeClass]
  | cons c cs ih =>
    by_cases hc : p c
    · simp only [takeClass, hc, if_true, List.all_cons]
      exact ⟨by rw [List.cons_append, ← ih.1], by simp [hc, ih.2]⟩
    · simp [takeClass, hc]

lemma takeDigits_dec : ∀ (n : Nat) (l : List Char),
    l = (takeDigits n l).1 ++ (takeDigits n l).2 ∧
    (takeDigits n l).1.all Char.isDigit = true := by
  intro n
  induction n with
  | zero => intro l; simp [takeDigits]
  | succ k ih =>
    intro l
    cases l with
    | nil => simp [takeDigits]
    | cons c cs =>
      by_cases hc : c.isDigit
      · simp only [takeDigits, hc, if_true, List.all_cons]
        exact ⟨by rw [List.cons_append, ← (ih cs).1], by simp [hc, (ih cs).2]⟩
      · simp [takeDigits, hc]

lemma sepGroupsF_dec (sepP : Char → Bool) : ∀ (f : Nat) (l : List Char),
    l = (sepGroupsF sepP f l).1 ++ (sepGroupsF sepP f l).2 ∧
    (sepGroupsF sepP f l).1.all (fun c => sepP c || c.isDigit) = true := by
  intro f
  induction f with
  | zero => intro l; simp [sepGroupsF]
  | succ k ih =>
    intro l
    cases l with
    | nil => simp [sepGroupsF]
    | cons c cs =>
      by_cases hc : sepP c
      · rcases cs with _ | ⟨a, _ | ⟨b, _ | ⟨d, rest⟩⟩⟩
        · simp [sepGroupsF, hc]
        · simp [sepGroupsF, hc]
        · simp [sepGroupsF, hc]
        · by_cases hdig : a.isDigit && b.isDigit && d.isDigit
          · simp only [sepGroupsF, hc, if_true, hdig, List.all_cons]
            simp only [Bool.and_eq_true] at hdig
            refine ⟨?_, ?_⟩
            · simp only [List.cons_append]
              rw [← (ih rest).1]
            · simp [hc, hdig.1.1, hdig.1.2, hdig.2, (ih rest).2]
          · simp [sepGroupsF, hc, hdig]
      · simp [sepGroupsF, hc]

lemma sepGroups_dec (sepP : Char → Bool) (l : List Char) :
    l = (sepGroups sepP l).1 ++ (sepGroups sepP l).2 ∧
    (sepGroups sepP l).1.all (fun c => sepP c || c.isDigit) = true :=
  sepGroupsF_dec sepP l.length l

lemma decTail_dec (decP : Char → Bool) : ∀ l : List Char,
    l = (decTail decP l).1 ++ (decTail decP l).2 ∧
    (decTail decP l).1.all (fun c => decP c || c.isDigit) = true := by
  intro l
  cases l with
  | nil => simp [decTail]
  | cons c cs =>
    by_cases hc : decP c
    · rcases cs with _ | ⟨a, _ | ⟨b, rest⟩⟩
      · simp [decTail, hc]
      · simp [decTail, hc]
      · by_cases hdig : a.isDigit && b.isDigit
        · simp only [Bool.and_eq_true] at hdig
          simp [decTail, hc, hdig.1, hdig.2]
        · simp [decTail, hc, hdig]
    · simp [decTail, hc]

lemma numeralMatch_spec (sepP decP : Char → Bool) (s cap rest : List Char)
    (h : numeralMatch sepP decP s = some (cap, rest)) :
    s = cap ++ rest ∧ cap ≠ [] ∧
    cap.all (fun c => c.isDigit || sepP c || decP c) = true := by
  simp only [numeralMatch] at h
  split at h
  · exact absurd h (by simp)
  · rename_i hne
    simp only [Option.some.injEq, Prod.mk.injEq] at h
    obtain ⟨hcap, hrest⟩ := h
    have hd := takeDigits_dec 3 s
    have hg := sepGroups_dec sepP (takeDigits 3 s).2
    have ht := decTail_dec decP (sepGroups sepP (takeDigits 3 s).2).2
    refine ⟨?_, ?_, ?_⟩
    · rw [← hcap, ← hrest]
      conv_lhs => rw [hd.1]
      conv_lhs => rw [hg.1]
      conv_lhs => rw [ht.1]
      simp [List.append_assoc]
    · intro hx
      rw [← hcap] at hx
      simp only [List.append_eq_nil] at hx
      exact hne (by simp [hx.1.1])
    · rw [← hcap]
      simp only [List.all_append, Bool.and_eq_true]
      refine ⟨⟨all_imp ?_ hd.2, all_imp ?_ hg.2⟩, all_imp ?_ ht.2⟩
      · intro c hc; simp [hc]
      · intro c hc
        simp only [Bool.or_eq_true] at hc ⊢
        tauto
      · intro c hc
        simp only [Bool.or_eq_true] at hc ⊢
        tauto

lemma litCi_cop (s q r1 : List Char) (h : litCi ['C', 'O', 'P'] s = some (q, r1)) :
    ∃ c1 c2 c3, s = c1 :: c2 :: c3 :: r1 ∧
      pyLower c1 = 'c' ∧ pyLower c2 = 'o' ∧ pyLower c3 = 'p' := by
  rcases s with _ | ⟨c1, _ | ⟨c2, _ | ⟨c3, s3⟩⟩⟩
  · simp [litCi] at h
  · simp [litCi] at h
  · simp [litCi] at h
  · simp only [litCi] at h
    split at h
    · split at h
      · split at h
        · rename_i h1 h2 h3
          simp only [Option.map, Option.some.injEq, Prod.mk.injEq] at h
          refine ⟨c1, c2, c3, by rw [← h.2], ?_, ?_, ?_⟩
          · rw [beq_iff_eq] at h1; rw [h1]; decide
          · rw [beq_iff_eq] at h2; rw [h2]; decide
          · rw [beq_iff_eq] at h3; rw [h3]; decide
        · simp at h
      · simp at h
    · simp at h

lemma matchCOP_spec (s cap : List Char) (n : Nat) (h : matchCOP s = some (cap, n)) :
    ∃ c1 c2 c3 sp rest, s = c1 :: c2 :: c3 :: (sp ++ cap ++ rest) ∧
      pyLower c1 = 'c' ∧ pyLower c2 = 'o' ∧ pyLower c3 = 'p' ∧
      sp.all isSpaceCh = true ∧ cap ≠ [] ∧ cap.all copNumCh = true ∧
      n = 3 + sp.length + cap.length := by
  simp only [matchCOP] at h
  split at h
  · exact absurd h (by simp)
  · rename_i q r1 hl
    split at h
    · exact absurd h (by simp)
    · rename_i cap2 rest2 hn
      simp only [Option.some.injEq, Prod.mk.injEq] at h
      obtain ⟨hcap, hcount⟩ := h
      subst hcap
      obtain ⟨c1, c2, c3, hs, h1, h2, h3⟩ := litCi_cop s q r1 hl
      have htc1 := (takeClass_dec isSpaceCh r1).1
      have htc2 := (takeClass_dec isSpaceCh r1).2
      obtain ⟨hdec, hne, hall⟩ :=
        numeralMatch_spec _ _ (takeClass isSpaceCh r1).2 cap2 rest2 hn
      generalize hgen : takeClass isSpaceCh r1 = tc at htc1 htc2 hdec hcount
      refine ⟨c1, c2, c3, tc.1, rest2, ?_, h1, h2, h3, htc2, hne, hall, hcount.symm⟩
      rw [hs, htc1, hdec]
      simp [List.append_assoc]

lemma mem_of_append_cons_eq {α : Type} : ∀ (u v w z : List α) (x : α),
    u ++ x :: w = v ++ z → u.length < v.length → x ∈ v := by
  intro u v
  induction v generalizing u with
  | nil => intro w z x h hl; simp at hl
  | cons b v2 ih =>
    intro w z x h hl
    cases u with
    | nil =>
      simp only [List.nil_append, List.cons_append] at h
      injection h with h1 _
      rw [h1]
      exact List.mem_cons_self b v2
    | cons a u2 =>
      simp only [List.cons_append] at h
      injection h with _ h2
      simp only [List.length_cons, Nat.add_lt_add_iff_right] at hl
      exact List.mem_cons_of_mem b (ih u2 w z x h2 hl)

lemma matchCOP_no_cross (p rest0 cap : List Char) (n : Nat) (hp : p ≠ [])
    (h : matchCOP (p ++ 'C' :: rest0) = some (cap, n)) : n ≤ p.length := by
  obtain ⟨c1, c2, c3, sp, rest, hs, h1, h2, h3, hsp, hcapne, hcap, hn⟩ :=
    matchCOP_spec _ _ _ h
  by_contra hlt
  rw [Nat.not_le] at hlt
  cases p with
  | nil => exact hp rfl
  | cons a p1 =>
    simp only [List.cons_append] at hs
    injection hs with e1 e2
    cases p1 with
    | nil =>
      simp only [List.nil_append] at e2
      injection e2 with f1 _
      rw [← f1] at h2
      exact absurd h2 (by decide)
    | cons b p2 =>
      simp only [List.cons_append] at e2
      injection e2 with f1 f2
      cases p2 with
      | nil =>
        simp only [List.nil_append] at f2
        injection f2 with g1 _
        rw [← g1] at h3
        exact absurd h3 (by decide)
      | cons d p3 =>
        simp only [List.cons_append] at f2
        injection f2 with g1 g2
        have hlen : p3.length < (sp ++ cap).length := by
          simp only [List.length_cons, List.length_append] at hlt ⊢
          omega
        have hmem : 'C' ∈ sp ++ cap := by
          exact mem_of_append_cons_eq p3 (sp ++ cap) rest0 rest 'C' g2 hlen
        rcases List.mem_append.mp hmem with hm | hm
        · exact absurd (List.all_eq_true.mp hsp _ hm) (by decide)
        · exact absurd (List.all_eq_true.mp hcap _ hm) (by decide)

lemma matchCOP_eval (post : List Char) :
    matchCOP ("COP 51.558,00".data ++ post) = some ("51.558,00".data, 13) := by rfl

lemma scanCOP_finds : ∀ (fuel : Nat) (pre post : List Char),
    (pre ++ "COP 51.558,00".data ++ post).length ≤ fuel →
    "51.558,00".data ∈ scanAllF matchCOP fuel (pre ++ "COP 51.558,00".data ++ post) := by
  have h13 : ("COP 51.558,00".data).length = 13 := rfl
  intro fuel
  induction fuel with
  | zero =>
    intro pre post h
    exfalso
    simp only [List.length_append, h13, Nat.le_zero] at h
    omega
  | succ f ih =>
    intro pre post h
    cases pre with
    | nil =>
      rw [List.nil_append]
      have he := matchCOP_eval post
      rw [show ("COP 51.558,00".data ++ post) =
        'C' :: ("OP 51.558,00".data ++ post) from rfl] at he ⊢
      rw [scanAllF, he]
      exact List.mem_cons_self _ _
    | cons a p1 =>
      have hstep : ((a :: p1) ++ "COP 51.558,00".data ++ post) =
          a :: (p1 ++ "COP 51.558,00".data ++ post) := by simp
      rw [hstep] at h ⊢
      cases hm : matchCOP (a :: (p1 ++ "COP 51.558,00".data ++ post)) with
      | none =>
        rw [scanAllF, hm]
        apply ih p1 post
        simp only [List.length_cons, List.length_append, List.length_nil, h13] at h ⊢
        omega
      | some pr =>
        obtain ⟨cap, n⟩ := pr
        have hm2 : matchCOP ((a :: p1) ++ 'C' :: ("OP 51.558,00".data ++ post)) =
            some (cap, n) := by
          rw [show ((a :: p1) ++ 'C' :: ("OP 51.558,00".data ++ post)) =
            a :: (p1 ++ "COP 51.558,00".data ++ post) from by simp]
          exact hm
        have hnc : n ≤ (a :: p1).length := matchCOP_no_cross _ _ _ _ (by simp) hm2
        have hpos : 1 ≤ n := by
          obtain ⟨c1, c2, c3, sp, rest, _, _, _, _, _, _, _, hn⟩ := matchCOP_spec _ _ _ hm
          omega
        rw [scanAllF, hm]
        apply List.mem_cons_of_mem
        have hdrop : List.drop (max n 1) (a :: (p1 ++ "COP 51.558,00".data ++ post)) =
            (List.drop n (a :: p1)) ++ "COP 51.558,00".data ++ post := by
          rw [Nat.max_eq_left hpos]
          rw [show (a :: (p1 ++ "COP 51.558,00".data ++ post)) =
            (a :: p1) ++ ("COP 51.558,00".data ++ post) from by simp]
          rw [List.drop_append_of_le_length hnc]
          rw [← List.append_assoc]
        rw [hdrop]
        apply ih
        simp only [List.length_cons, List.length_append, List.length_drop,
          List.length_nil, h13] at h ⊢
        omega

/-- C5 (amended): every text containing the substring COP 51.558,00
yields at least one candidate of value 51558.00 and currency COP (the
priority-1 rule fires on that occurrence), and on the text consisting of
exactly that substring the cascade yields it as the only candidate,
whatever the bank context. -/
theorem cop_contained_candidate :
    (∀ (pre post : List Char) (banks : List String),
      ∃ c ∈ extract_amounts ⟨pre ++ "COP 51.558,00".data ++ post⟩ banks,
        c.amount = 51558 ∧ c.currency = "COP") ∧
    (∀ banks : List String,
      extract_amounts "COP 51.558,00" banks = [⟨51558, "COP", "COP 51.558,00"⟩]) := by
  constructor
  · intro pre post banks
    have hmem : "51.558,00".data ∈
        scanAll matchCOP (pre ++ "COP 51.558,00".data ++ post) :=
      scanCOP_finds _ pre post (le_refl _)
    have hcand : (⟨51558, "COP", "COP 51.558,00"⟩ : AmountInfo) ∈
        copCandidatesL (pre ++ "COP 51.558,00".data ++ post) :=
      List.mem_filterMap.mpr ⟨"51.558,00".data, hmem, by decide⟩
    have hne : copCandidatesL (pre ++ "COP 51.558,00".data ++ post) ++
        usdCandidatesL (pre ++ "COP 51.558,00".data ++ post) ++
        dollarCandidatesL (is_colombian_bank banks)
          (pre ++ "COP 51.558,00".data ++ post) ≠ [] := by
      intro hemp
      rw [List.append_eq_nil, List.append_eq_nil] at hemp
      rw [hemp.1.1] at hcand
      exact List.not_mem_nil _ hcand
    refine ⟨⟨51558, "COP", "COP 51.558,00"⟩, ?_, rfl, rfl⟩
    show (⟨51558, "COP", "COP 51.558,00"⟩ : AmountInfo) ∈
      amountCascade (is_colombian_bank banks) (pre ++ "COP 51.558,00".data ++ post)
    simp only [amountCascade]
    rw [if_neg (by simpa [List.isEmpty_iff] using hne)]
    exact List.mem_append_left _ (List.mem_append_left _ hcand)
  · intro banks
    cases hb : is_colombian_bank banks
    · have hx : extract_amounts "COP 51.558,00" banks =
          amountCascade false "COP 51.558,00".data := by
        unfold extract_amounts
        rw [hb]
      rw [hx]
      decide
    · have hx : extract_amounts "COP 51.558,00" banks =
          amountCascade true "COP 51.558,00".data := by
        unfold extract_amounts
        rw [hb]
      rw [hx]
      decide

/-- C5 counterexample: a text containing the substring COP 51.558,00 on
which the cascade yields two candidates, not exactly one. -/
theorem cop_contained_unique_cex :
    infixOf "COP 51.558,00".data "COP 1,00 COP 51.558,00".data = true ∧
    (extract_amounts "COP 1,00 COP 51.558,00" []).length = 2 := by
  constructor <;> decide

theorem colombian_flag_exact_match_wit :
    is_colombian_bank ["Bancolombia"] = true ∧
    is_colombian_bank ["Bancolombia S.A."] = false :=
  ⟨(colombian_flag_exact_match.1 ["Bancolombia"]).mpr
      ⟨"Bancolombia", by decide, by decide⟩,
   colombian_flag_exact_match.2⟩
